import Mathlib

/-!
Verification of the Car Hub server (Express + MongoDB backend).

The development shallowly embeds the route handlers of src/index.js
(the current revision; src/unnamed/part_000 is an earlier revision and is
used where the frozen claims cite it, namely for GET /latest-products).
MongoDB collections are modelled as Lean lists of documents; collection
operations (findOne, updateOne on the first match, insertOne appending,
deleteOne removing the first match) are translated one by one.  Mongo
generates a fresh unique _id for each inserted import document; this is
modelled by a counter nextImportId carried in the state.
-/

namespace CarHub

/-- Result of the JavaScript coercion Number(x) applied to a request-body
value: either a real number (modelled on integers) or NaN, e.g.
Number of the string "abc".  JS comparison operators return false whenever
one side is NaN. -/
inductive JsNum where
  | nan : JsNum
  | num : Int → JsNum
deriving Repr, DecidableEq

/-- JS comparison q < m for q possibly NaN: false when q is NaN. -/
def JsNum.ltInt : JsNum → Int → Bool
  | .nan, _ => false
  | .num n, m => decide (n < m)

/-- Hex digit test used by ObjectId validity. -/
def isHexDigit (c : Char) : Bool :=
  c.isDigit || ('a' ≤ c && c ≤ 'f') || ('A' ≤ c && c ≤ 'F')

/-- ObjectId.isValid of the mongodb driver on a string input: true for a
12-character string (12-byte representation) or a 24-character hex string. -/
def isValidObjectId (s : String) : Bool :=
  s.length == 12 || (s.length == 24 && s.toList.all isHexDigit)

/-- HTTP response as far as the claims observe it: status code, the
success flag of the JSON body, and its optional message field. -/
structure HttpResp where
  status : Nat
  success : Bool
  message : Option String
deriving Repr, DecidableEq

/-- Response res.status(400).json with success false and no message
(src/index.js line 173, line 257). -/
def resValidationFail : HttpResp := ⟨400, false, none⟩

/-- Response res.status(400).json with message "Stock insufficient"
(src/index.js line 178). -/
def resStockInsufficient : HttpResp := ⟨400, false, some "Stock insufficient"⟩

/-- Response res.status(404).json with success false
(src/index.js line 265). -/
def resImportNotFound : HttpResp := ⟨404, false, none⟩

/-- Response res.json with success true (src/index.js lines 206 and 281). -/
def resOk : HttpResp := ⟨200, true, none⟩

/-- Product document of the products collection.  POST /products
(src/index.js lines 106-120) spreads the request body and stamps
createdBy and createdAt; no code path in the repository ever writes a
field named created_at, so that field is none on every document the
server creates (it is kept in the model because GET /latest-products of
src/unnamed/part_000 sorts by it). -/
structure Product where
  _id : String
  productName : String
  productImage : String
  price : Int
  originCountry : String
  rating : Int
  availableQuantity : Int
  createdBy : String
  createdAt : Nat
  created_at : Option Nat
deriving Repr, DecidableEq

/-- Import document of the imports collection
(src/index.js lines 192-198). -/
structure ImportRecord where
  _id : Nat
  userEmail : String
  productId : String
  importedQuantity : Int
  importedAt : Nat
  status : String
deriving Repr, DecidableEq

/-- The two persisted collections plus the fresh-id counter modelling
the ObjectId generation of insertOne on the imports collection. -/
structure CarHubState where
  products : List Product
  imports : List ImportRecord
  nextImportId : Nat
deriving Repr, DecidableEq

/-- productsCollection.findOne on the _id field: first matching document. -/
def findOneProduct (ps : List Product) (pid : String) : Option Product :=
  ps.find? (fun p => p._id == pid)

/-- productsCollection.updateOne with an inc of availableQuantity by d,
filtered by _id: updateOne modifies the first matching document only and
is a no-op when no document matches. -/
def incAvailable : List Product → String → Int → List Product
  | [], _, _ => []
  | p :: rest, pid, d =>
    match p._id == pid with
    | true => { p with availableQuantity := p.availableQuantity + d } :: rest
    | false => p :: incAvailable rest pid d

/-- importsCollection.findOne filtered by userEmail and productId:
first matching document (src/index.js lines 181-184). -/
def findOneImport (rs : List ImportRecord) (u pid : String) : Option ImportRecord :=
  rs.find? (fun r => r.userEmail == u && r.productId == pid)

/-- importsCollection.findOne filtered by _id: first matching document. -/
def findImportById (rs : List ImportRecord) (i : Nat) : Option ImportRecord :=
  rs.find? (fun r => r._id == i)

/-- importsCollection.updateOne with an inc of importedQuantity by d,
filtered by _id: modifies the first matching document only. -/
def incImportedById : List ImportRecord → Nat → Int → List ImportRecord
  | [], _, _ => []
  | r :: rest, i, d =>
    match r._id == i with
    | true => { r with importedQuantity := r.importedQuantity + d } :: rest
    | false => r :: incImportedById rest i d

/-- importsCollection.deleteOne filtered by _id: removes the first
matching document only. -/
def deleteImportById : List ImportRecord → Nat → List ImportRecord
  | [], _ => []
  | r :: rest, i =>
    match r._id == i with
    | true => rest
    | false => r :: deleteImportById rest i

/-- Writes of the success path of POST /import-product
(src/index.js lines 181-204): merge into the existing import record of
the caller and product when one exists, else insert a fresh record with
status pending, then decrement availableQuantity of the product by
the imported quantity. -/
def importSuccessState (userEmail productId : String) (importQuantity : Int)
    (now : Nat) (s : CarHubState) : CarHubState :=
  let s1 :=
    match findOneImport s.imports userEmail productId with
    | some existing =>
      { s with imports := incImportedById s.imports existing._id importQuantity }
    | none =>
      { s with
          imports := s.imports ++
            [({ _id := s.nextImportId, userEmail := userEmail,
                productId := productId, importedQuantity := importQuantity,
                importedAt := now, status := "pending" } : ImportRecord)],
          nextImportId := s.nextImportId + 1 }
  { s1 with products := incAvailable s1.products productId (-importQuantity) }

/-- POST /import-product (src/index.js lines 167-211) for a numeric
quantity.  Guard, product lookup, stock check, then the success
writes; every early return leaves the state untouched exactly as the
source returns before any write.  The now argument is the clock value of
new Date(). -/
def importProduct (userEmail productId : String) (importQuantity : Int)
    (now : Nat) (s : CarHubState) : HttpResp × CarHubState :=
  match !(isValidObjectId productId) || decide (importQuantity < 1) with
  | true => (resValidationFail, s)
  | false =>
    match findOneProduct s.products productId with
    | none => (resStockInsufficient, s)
    | some product =>
      match decide (importQuantity > product.availableQuantity) with
      | true => (resStockInsufficient, s)
      | false => (resOk, importSuccessState userEmail productId importQuantity now s)

/-- Writes of the success path of DELETE /my-imports/product/:productId
(src/index.js lines 267-279): delete the found record when the field
importedQuantity is exactly 1, else decrement it by 1; then restore 1
unit of availableQuantity on the product, an unconditional updateOne
that silently matches nothing when the product is gone. -/
def withdrawSuccessState (importDoc : ImportRecord) (productId : String)
    (s : CarHubState) : CarHubState :=
  let s1 :=
    match importDoc.importedQuantity == 1 with
    | true => { s with imports := deleteImportById s.imports importDoc._id }
    | false => { s with imports := incImportedById s.imports importDoc._id (-1) }
  { s1 with products := incAvailable s1.products productId 1 }

/-- DELETE /my-imports/product/:productId (src/index.js lines 255-286):
guard, ledger lookup, then the success writes. -/
def removeImport (userEmail productId : String) (s : CarHubState) :
    HttpResp × CarHubState :=
  match isValidObjectId productId with
  | false => (resValidationFail, s)
  | true =>
    match findOneImport s.imports userEmail productId with
    | none => (resImportNotFound, s)
    | some importDoc => (resOk, withdrawSuccessState importDoc productId s)

/-- Row produced by the GET /my-imports aggregation after the final
projection (src/index.js lines 235-245). -/
structure ImportRow where
  productId : String
  productImage : String
  productName : String
  price : Int
  originCountry : String
  rating : Int
  importedQuantity : Int
deriving Repr, DecidableEq

/-- One step of the Mongo group stage: fold a record into the running
groups, adding its quantity to the group of its productId when that
group exists and appending a new group otherwise. -/
def addToGroups : List (String × Int) → String → Int → List (String × Int)
  | [], pid, q => [(pid, q)]
  | (p, acc) :: rest, pid, q =>
    match p == pid with
    | true => (p, acc + q) :: rest
    | false => (p, acc) :: addToGroups rest pid q

/-- The group stage of the GET /my-imports pipeline: group by productId
summing importedQuantity (src/index.js lines 219-225).  Mongo does not
fix the order of groups; the model uses first-occurrence order. -/
def groupByProduct (rs : List ImportRecord) : List (String × Int) :=
  rs.foldl (fun gs r => addToGroups gs r.productId r.importedQuantity) []

/-- Lookup-unwind-project stages of the GET /my-imports pipeline
applied to one group: one row per product document whose _id equals the
group key (the unwind drops the group when there is none), carrying the
summed importedQuantity and the projected display fields. -/
def lookupRows (s : CarHubState) (g : String × Int) : List ImportRow :=
  (s.products.filter (fun p => p._id == g.1)).map
    (fun p => ⟨g.1, p.productImage, p.productName, p.price,
               p.originCountry, p.rating, g.2⟩)

/-- GET /my-imports (src/index.js lines 214-252): match the callers
records, group by productId, lookup into products, unwind, project. -/
def myImports (userEmail : String) (s : CarHubState) : List ImportRow :=
  (groupByProduct (s.imports.filter
    (fun r => r.userEmail == userEmail))).flatMap (lookupRows s)

/-- Character match of the regex find of GET /search with option i: a
dot in the pattern matches any character, any other pattern character
matches case-insensitively.  The model covers patterns built from
non-metacharacters and the dot; the full PCRE engine is external to the
repository. -/
def charMatchesCI (pc c : Char) : Bool := pc == '.' || pc.toLower == c.toLower

/-- Anchored regex match of a pattern against a prefix of the text. -/
def matchesAt : List Char → List Char → Bool
  | [], _ => true
  | _ :: _, [] => false
  | p :: ps, c :: cs => charMatchesCI p c && matchesAt ps cs

/-- Unanchored case-insensitive regex search: the pattern matches at
some position of the text. -/
def regexSearchCI (pat : List Char) : List Char → Bool
  | [] => matchesAt pat []
  | c :: cs => matchesAt pat (c :: cs) || regexSearchCI pat cs

/-- Model of the JS String trim of the search route: drop whitespace
from both ends (written structurally so that it evaluates). -/
def strTrim (s : String) : String :=
  String.mk (((s.toList.dropWhile Char.isWhitespace).reverse.dropWhile
    Char.isWhitespace).reverse)

/-- GET /search (src/index.js lines 289-303): trim the query, return the
empty list when it is empty, else filter products whose productName
matches the query as a case-insensitive regex, capped at 20. -/
def searchProducts (searchText : String) (ps : List Product) : List Product :=
  let q := strTrim searchText
  if q == "" then []
  else (ps.filter (fun p => regexSearchCI q.toList p.productName.toList)).take 20

/-- Descending comparison on the created_at sort key of Mongo sort with
value -1; a missing field (none) sorts below every present value. -/
def optGE : Option Nat → Option Nat → Bool
  | none, none => true
  | none, some _ => false
  | some _, none => true
  | some a, some b => decide (b ≤ a)

/-- Stable insertion used to model the Mongo sort stage: a document is
inserted before the first earlier document it strictly precedes, so
documents with equal keys keep their collection order. -/
def orderedInsertDesc (a : Product) : List Product → List Product
  | [] => [a]
  | b :: l => if optGE a.created_at b.created_at then a :: b :: l
              else b :: orderedInsertDesc a l

/-- Sort of the products collection by created_at descending, as in the
find().sort of GET /latest-products (src/unnamed/part_000 line 89). -/
def sortByCreatedAtDesc : List Product → List Product
  | [] => []
  | a :: l => orderedInsertDesc a (sortByCreatedAtDesc l)

/-- GET /latest-products (src/unnamed/part_000 lines 85-102): sort by
created_at descending, limit 6. -/
def latestProducts (ps : List Product) : List Product :=
  (sortByCreatedAtDesc ps).take 6

/-- Request body of POST /products as far as the model needs it; the _id
field stands for the ObjectId Mongo generates at insertion. -/
structure ProductBody where
  _id : String
  productName : String
  productImage : String
  price : Int
  originCountry : String
  rating : Int
  availableQuantity : Int
deriving Repr, DecidableEq

/-- POST /products (src/index.js lines 106-120): spread the body, stamp
createdBy with the caller email and createdAt with the current time,
insert.  Nothing writes a created_at field. -/
def insertProduct (body : ProductBody) (userEmail : String) (now : Nat)
    (ps : List Product) : List Product :=
  ps ++ [{ _id := body._id, productName := body.productName,
           productImage := body.productImage, price := body.price,
           originCountry := body.originCountry, rating := body.rating,
           availableQuantity := body.availableQuantity,
           createdBy := userEmail, createdAt := now, created_at := none }]

/-- Operations of the reservation service whose sequences the
conservation claims quantify over. -/
inductive Op where
  | importOp (userEmail productId : String) (qty : Int) (now : Nat)
  | withdrawOp (userEmail productId : String)
deriving Repr, DecidableEq

/-- Dispatch of one operation to its route handler. -/
def applyOp (s : CarHubState) : Op → HttpResp × CarHubState
  | .importOp u pid q t => importProduct u pid q t s
  | .withdrawOp u pid => removeImport u pid s

/-- State after running a sequence of operations. -/
def runOps (s : CarHubState) : List Op → CarHubState
  | [] => s
  | op :: rest => runOps (applyOp s op).2 rest

/-- All operations of the sequence respond with success true, each run
from the state the previous ones produced. -/
def opsSucceed (s : CarHubState) : List Op → Bool
  | [] => true
  | op :: rest => (applyOp s op).1.success && opsSucceed (applyOp s op).2 rest

/-- Well-formedness Mongo guarantees for the imports collection: the
generated _id values are pairwise distinct, and (in the counter model)
all of them are below the counter. -/
def WF (s : CarHubState) : Prop :=
  (s.imports.map ImportRecord._id).Nodup ∧
    ∀ r ∈ s.imports, r._id < s.nextImportId

/-- Sum of importedQuantity over all import records of one product. -/
def importSum (rs : List ImportRecord) (pid : String) : Int :=
  ((rs.filter (fun r => r.productId == pid)).map
    (fun r => r.importedQuantity)).sum

/-- Outcome of the guard stage of POST /import-product: either the
request is rejected before any storage access, or control proceeds to
the first storage call (productsCollection.findOne). -/
inductive ImportPhase where
  | rejectedBeforeStorage (resp : HttpResp)
  | reachedStorage
deriving Repr, DecidableEq

/-- Guard stage of POST /import-product on the raw body value
(src/index.js lines 170-174): qty is Number(importQuantity), possibly
NaN, and the handler returns 400 exactly when the productId is invalid
or qty < 1 holds in JS semantics. -/
def importGuard (productId : String) (importQuantity : JsNum) : ImportPhase :=
  if !(isValidObjectId productId) || importQuantity.ltInt 1 then
    .rejectedBeforeStorage resValidationFail
  else
    .reachedStorage

/-- Reading of the spec wording for a valid requested quantity: a number
greater than or equal to 1.  NaN is not a number greater than or equal
to 1. -/
def qtyValidPerSpec : JsNum → Bool
  | .nan => false
  | .num n => decide (1 ≤ n)

/-- Case-insensitive character equality, the claim-side notion used to
express substring occurrence. -/
def charEqCI (a b : Char) : Bool := a.toLower == b.toLower

/-- Claim-side anchored occurrence: t is a case-insensitive prefix of
the text. -/
def prefixAtCI : List Char → List Char → Bool
  | [], _ => true
  | _ :: _, [] => false
  | a :: as, b :: bs => charEqCI a b && prefixAtCI as bs

/-- Claim-side unanchored occurrence: t occurs case-insensitively as a
substring of the text.  This definition follows the words of the spec
(search matches text case-insensitively as a substring, unanchored) and
is compared against the regex behaviour of the code. -/
def isSubstringCI (t : List Char) : List Char → Bool
  | [] => prefixAtCI t []
  | c :: cs => prefixAtCI t (c :: cs) || isSubstringCI t cs

/-- Regex metacharacters of PCRE; a search text avoiding all of them is
interpreted by the regex engine as a literal. -/
def isRegexMeta (c : Char) : Bool :=
  c ∈ ['.', '\\', '*', '+', '?', '(', ')', '[', ']', '\x7b', '\x7d', '^', '$', '|']

/-! Helper lemmas about the collection primitives. -/

theorem incAvailable_of_none {ps : List Product} {pid : String} (d : Int)
    (h : findOneProduct ps pid = none) : incAvailable ps pid d = ps := by
  induction ps with
  | nil => rfl
  | cons p rest ih =>
    unfold findOneProduct at h ih
    rw [List.find?_cons] at h
    cases hb : (p._id == pid) with
    | true => rw [hb] at h; cases h
    | false =>
      rw [hb] at h
      simp only [incAvailable, hb, ih h]

theorem findOneProduct_incAvailable_ne {ps : List Product} {pid pid' : String}
    (d : Int) (h : pid ≠ pid') :
    findOneProduct (incAvailable ps pid' d) pid = findOneProduct ps pid := by
  induction ps with
  | nil => rfl
  | cons p rest ih =>
    unfold findOneProduct at ih ⊢
    cases hb : (p._id == pid') with
    | true =>
      have hne : (p._id == pid) = false := by
        simp only [beq_iff_eq] at hb
        simp only [beq_eq_false_iff_ne, ne_eq, hb]
        exact fun hc => h hc.symm
      simp only [incAvailable, hb]
      rw [List.find?_cons, List.find?_cons]
      simp only [hne]
    | false =>
      simp only [incAvailable, hb]
      rw [List.find?_cons, List.find?_cons]
      cases hc : (p._id == pid) with
      | true => rfl
      | false => exact ih

theorem findOneProduct_incAvailable_self {ps : List Product} {pid : String}
    {p : Product} (d : Int) (h : findOneProduct ps pid = some p) :
    findOneProduct (incAvailable ps pid d) pid =
      some { p with availableQuantity := p.availableQuantity + d } := by
  induction ps with
  | nil => simp [findOneProduct] at h
  | cons p0 rest ih =>
    unfold findOneProduct at h ih ⊢
    rw [List.find?_cons] at h
    cases hb : (p0._id == pid) with
    | true =>
      rw [hb] at h
      cases h
      simp only [incAvailable, hb]
      rw [List.find?_cons]
      simp only [hb]
    | false =>
      rw [hb] at h
      simp only [incAvailable, hb]
      rw [List.find?_cons]
      simp only [hb]
      exact ih h

theorem importSum_nil (pid : String) : importSum [] pid = 0 := rfl

theorem importSum_cons (r : ImportRecord) (rs : List ImportRecord) (pid : String) :
    importSum (r :: rs) pid =
      (if r.productId == pid then r.importedQuantity else 0) + importSum rs pid := by
  cases hb : (r.productId == pid) with
  | true => simp [importSum, List.filter_cons, hb]
  | false => simp [importSum, List.filter_cons, hb]

theorem importSum_append (rs ts : List ImportRecord) (pid : String) :
    importSum (rs ++ ts) pid = importSum rs pid + importSum ts pid := by
  simp [importSum, List.filter_append]

theorem importSum_incImportedById {rs : List ImportRecord} {i : Nat}
    {r : ImportRecord} (d : Int) (pid : String)
    (h : findImportById rs i = some r) :
    importSum (incImportedById rs i d) pid =
      importSum rs pid + (if r.productId == pid then d else 0) := by
  induction rs with
  | nil => simp [findImportById] at h
  | cons r0 rest ih =>
    unfold findImportById at h ih
    rw [List.find?_cons] at h
    cases hb : (r0._id == i) with
    | true =>
      rw [hb] at h
      cases h
      simp only [incImportedById, hb]
      rw [importSum_cons, importSum_cons]
      cases hc : (r.productId == pid) with
      | true => simp [hc]; ring
      | false => simp [hc]
    | false =>
      rw [hb] at h
      simp only [incImportedById, hb]
      rw [importSum_cons, importSum_cons, ih h]
      ring

theorem importSum_deleteImportById {rs : List ImportRecord} {i : Nat}
    {r : ImportRecord} (pid : String)
    (h : findImportById rs i = some r) :
    importSum (deleteImportById rs i) pid =
      importSum rs pid - (if r.productId == pid then r.importedQuantity else 0) := by
  induction rs with
  | nil => simp [findImportById] at h
  | cons r0 rest ih =>
    unfold findImportById at h ih
    rw [List.find?_cons] at h
    cases hb : (r0._id == i) with
    | true =>
      rw [hb] at h
      cases h
      simp only [deleteImportById, hb]
      rw [importSum_cons]
      cases hc : (r.productId == pid) with
      | true => simp [hc]
      | false => simp [hc]
    | false =>
      rw [hb] at h
      simp only [deleteImportById, hb]
      rw [importSum_cons, importSum_cons, ih h]
      ring

theorem findImportById_of_mem {rs : List ImportRecord} {r : ImportRecord}
    (hnd : (rs.map ImportRecord._id).Nodup) (hmem : r ∈ rs) :
    findImportById rs r._id = some r := by
  induction rs with
  | nil => cases hmem
  | cons r0 rest ih =>
    rw [List.map_cons, List.nodup_cons] at hnd
    rcases List.mem_cons.mp hmem with h0 | hrest
    · cases h0
      unfold findImportById
      rw [List.find?_cons]
      simp
    · have hne : (r0._id == r._id) = false := by
        simp only [beq_eq_false_iff_ne, ne_eq]
        intro hc
        exact hnd.1 (hc ▸ List.mem_map_of_mem ImportRecord._id hrest)
      unfold findImportById at ih ⊢
      rw [List.find?_cons, hne]
      exact ih hnd.2 hrest

theorem map_id_incImportedById (rs : List ImportRecord) (i : Nat) (d : Int) :
    (incImportedById rs i d).map ImportRecord._id = rs.map ImportRecord._id := by
  induction rs with
  | nil => rfl
  | cons r0 rest ih =>
    cases hb : (r0._id == i) with
    | true => simp [incImportedById, hb]
    | false => simp [incImportedById, hb, ih]

theorem deleteImportById_sublist (rs : List ImportRecord) (i : Nat) :
    (deleteImportById rs i).Sublist rs := by
  induction rs with
  | nil => simp [deleteImportById]
  | cons r0 rest ih =>
    cases hb : (r0._id == i) with
    | true =>
      simp only [deleteImportById, hb]
      exact List.sublist_cons_self r0 rest
    | false =>
      simp only [deleteImportById, hb]
      exact ih.cons₂ r0

/-! Inversion of the handlers on success, and preservation of
well-formedness. -/

theorem findOneImport_spec {rs : List ImportRecord} {u pid : String}
    {r : ImportRecord} (h : findOneImport rs u pid = some r) :
    r ∈ rs ∧ r.userEmail = u ∧ r.productId = pid := by
  have hm := List.mem_of_find?_eq_some h
  have hp := List.find?_some h
  simp only [Bool.and_eq_true, beq_iff_eq] at hp
  exact ⟨hm, hp.1, hp.2⟩

theorem importProduct_success_eq {u pid : String} {q : Int} {t : Nat}
    {s : CarHubState}
    (hs : (importProduct u pid q t s).1.success = true) :
    importProduct u pid q t s = (resOk, importSuccessState u pid q t s) := by
  unfold importProduct at hs ⊢
  cases hg : (!(isValidObjectId pid) || decide (q < 1)) with
  | true => simp only [hg] at hs; simp [resValidationFail] at hs
  | false =>
    simp only [hg] at hs ⊢
    cases hf : findOneProduct s.products pid with
    | none => simp only [hf] at hs; simp [resStockInsufficient] at hs
    | some product =>
      simp only [hf] at hs ⊢
      cases hq : decide (q > product.availableQuantity) with
      | true => simp only [hq] at hs; simp [resStockInsufficient] at hs
      | false => simp only [hq]

theorem removeImport_success_eq {u pid : String} {s : CarHubState}
    (hs : (removeImport u pid s).1.success = true) :
    ∃ importDoc, findOneImport s.imports u pid = some importDoc ∧
      removeImport u pid s = (resOk, withdrawSuccessState importDoc pid s) := by
  unfold removeImport at hs ⊢
  cases hg : isValidObjectId pid with
  | false => simp only [hg] at hs; simp [resValidationFail] at hs
  | true =>
    simp only [hg] at hs ⊢
    cases hf : findOneImport s.imports u pid with
    | none => simp only [hf] at hs; simp [resImportNotFound] at hs
    | some importDoc =>
      simp only [hf]
      exact ⟨importDoc, rfl, rfl⟩

theorem WF_importSuccessState {u pid : String} {q : Int} {t : Nat}
    {s : CarHubState} (hWF : WF s) : WF (importSuccessState u pid q t s) := by
  unfold importSuccessState
  cases hf : findOneImport s.imports u pid with
  | some existing =>
    simp only [hf]
    refine ⟨?_, ?_⟩
    · show ((incImportedById s.imports existing._id q).map ImportRecord._id).Nodup
      rw [map_id_incImportedById]
      exact hWF.1
    · intro r hr
      have hmm : r._id ∈ (incImportedById s.imports existing._id q).map ImportRecord._id :=
        List.mem_map_of_mem ImportRecord._id hr
      rw [map_id_incImportedById] at hmm
      rcases List.mem_map.mp hmm with ⟨r0, hr0, hid⟩
      rw [← hid]
      exact hWF.2 r0 hr0
  | none =>
    simp only [hf]
    refine ⟨?_, ?_⟩
    · show ((s.imports ++ _).map ImportRecord._id).Nodup
      rw [List.map_append]
      rw [List.nodup_append]
      refine ⟨hWF.1, List.nodup_singleton _, ?_⟩
      intro x hx hx1
      simp only [List.map_cons, List.map_nil, List.mem_singleton] at hx1
      rcases List.mem_map.mp hx with ⟨r0, hr0, hid⟩
      have := hWF.2 r0 hr0
      omega
    · intro r hr
      rcases List.mem_append.mp hr with h | h
      · exact Nat.lt_succ_of_lt (hWF.2 r h)
      · simp only [List.mem_singleton] at h
        rw [h]
        exact Nat.lt_succ_self _

theorem WF_withdrawSuccessState {doc : ImportRecord} {pid : String}
    {s : CarHubState} (hWF : WF s) : WF (withdrawSuccessState doc pid s) := by
  unfold withdrawSuccessState
  cases h1 : (doc.importedQuantity == 1) with
  | true =>
    simp only [h1]
    refine ⟨?_, ?_⟩
    · show ((deleteImportById s.imports doc._id).map ImportRecord._id).Nodup
      exact hWF.1.sublist ((deleteImportById_sublist s.imports doc._id).map ImportRecord._id)
    · intro r hr
      exact hWF.2 r ((deleteImportById_sublist s.imports doc._id).subset hr)
  | false =>
    simp only [h1]
    refine ⟨?_, ?_⟩
    · show ((incImportedById s.imports doc._id (-1)).map ImportRecord._id).Nodup
      rw [map_id_incImportedById]
      exact hWF.1
    · intro r hr
      have hmm : r._id ∈ (incImportedById s.imports doc._id (-1)).map ImportRecord._id :=
        List.mem_map_of_mem ImportRecord._id hr
      rw [map_id_incImportedById] at hmm
      rcases List.mem_map.mp hmm with ⟨r0, hr0, hid⟩
      rw [← hid]
      exact hWF.2 r0 hr0

/-- Conservation across one successful operation: well-formedness is
preserved, the product stays in the catalog, and the sum of the
outstanding imported quantities of the product plus its stock is
unchanged. -/
theorem conservation_step {s : CarHubState} {op : Op} {pid : String}
    {p : Product} (hWF : WF s) (hp : findOneProduct s.products pid = some p)
    (hs : (applyOp s op).1.success = true) :
    WF (applyOp s op).2 ∧
      ∃ p', findOneProduct (applyOp s op).2.products pid = some p' ∧
        importSum (applyOp s op).2.imports pid + p'.availableQuantity =
          importSum s.imports pid + p.availableQuantity := by
  cases op with
  | importOp u pid' q t =>
    simp only [applyOp] at hs ⊢
    rw [importProduct_success_eq hs]
    refine ⟨WF_importSuccessState hWF, ?_⟩
    unfold importSuccessState
    cases hf : findOneImport s.imports u pid' with
    | some existing =>
      simp only [hf]
      have hspec := findOneImport_spec hf
      have hById := findImportById_of_mem hWF.1 hspec.1
      by_cases hpp : pid = pid'
      · subst hpp
        refine ⟨{ p with availableQuantity := p.availableQuantity + (-q) },
          findOneProduct_incAvailable_self (-q) hp, ?_⟩
        rw [importSum_incImportedById q pid hById, hspec.2.2]
        simp only [beq_self_eq_true, if_true]
        ring
      · refine ⟨p, (findOneProduct_incAvailable_ne (-q) hpp).trans hp, ?_⟩
        rw [importSum_incImportedById q pid hById, hspec.2.2]
        have : (pid' == pid) = false := by
          simp only [beq_eq_false_iff_ne, ne_eq]
          exact fun hc => hpp hc.symm
        rw [this]
        simp
    | none =>
      simp only [hf]
      by_cases hpp : pid = pid'
      · subst hpp
        refine ⟨{ p with availableQuantity := p.availableQuantity + (-q) },
          findOneProduct_incAvailable_self (-q) hp, ?_⟩
        rw [importSum_append]
        rw [importSum_cons, importSum_nil]
        simp only [beq_self_eq_true, if_true]
        ring
      · refine ⟨p, (findOneProduct_incAvailable_ne (-q) hpp).trans hp, ?_⟩
        rw [importSum_append, importSum_cons, importSum_nil]
        have : (pid' == pid) = false := by
          simp only [beq_eq_false_iff_ne, ne_eq]
          exact fun hc => hpp hc.symm
        rw [this]
        simp
  | withdrawOp u pid' =>
    simp only [applyOp] at hs ⊢
    rcases removeImport_success_eq hs with ⟨doc, hf, heq⟩
    rw [heq]
    refine ⟨WF_withdrawSuccessState hWF, ?_⟩
    unfold withdrawSuccessState
    have hspec := findOneImport_spec hf
    have hById := findImportById_of_mem hWF.1 hspec.1
    cases h1 : (doc.importedQuantity == 1) with
    | true =>
      simp only [h1]
      have hq1 : doc.importedQuantity = 1 := by simpa using h1
      by_cases hpp : pid = pid'
      · subst hpp
        refine ⟨{ p with availableQuantity := p.availableQuantity + 1 },
          findOneProduct_incAvailable_self 1 hp, ?_⟩
        rw [importSum_deleteImportById pid hById, hspec.2.2]
        simp only [beq_self_eq_true, if_true, hq1]
        ring
      · refine ⟨p, (findOneProduct_incAvailable_ne 1 hpp).trans hp, ?_⟩
        rw [importSum_deleteImportById pid hById, hspec.2.2]
        have : (pid' == pid) = false := by
          simp only [beq_eq_false_iff_ne, ne_eq]
          exact fun hc => hpp hc.symm
        rw [this]
        simp
    | false =>
      simp only [h1]
      by_cases hpp : pid = pid'
      · subst hpp
        refine ⟨{ p with availableQuantity := p.availableQuantity + 1 },
          findOneProduct_incAvailable_self 1 hp, ?_⟩
        rw [importSum_incImportedById (-1) pid hById, hspec.2.2]
        simp only [beq_self_eq_true, if_true]
        ring
      · refine ⟨p, (findOneProduct_incAvailable_ne 1 hpp).trans hp, ?_⟩
        rw [importSum_incImportedById (-1) pid hById, hspec.2.2]
        have : (pid' == pid) = false := by
          simp only [beq_eq_false_iff_ne, ne_eq]
          exact fun hc => hpp hc.symm
        rw [this]
        simp

/-! Concrete fixtures used by witnesses and counterexamples. -/

/-- A valid 24-character hex ObjectId. -/
def wPidA : String := "aaaaaaaaaaaaaaaaaaaaaaaa"

/-- Another valid ObjectId, absent from the fixture catalog. -/
def wPidB : String := "bbbbbbbbbbbbbbbbbbbbbbbb"

/-- A catalog product with 5 units of stock. -/
def wProdA : Product :=
  { _id := wPidA, productName := "Honda Civic", productImage := "civic.png",
    price := 20000, originCountry := "Japan", rating := 5,
    availableQuantity := 5, createdBy := "owner@example.com", createdAt := 1,
    created_at := none }

/-- Fixture state: one product, no import records. -/
def wS0 : CarHubState := { products := [wProdA], imports := [], nextImportId := 0 }

/-- The walkthrough of spec section 8: import 3, import 1, then four
withdrawals by the same user on the same product. -/
def wOps : List Op :=
  [Op.importOp "u@example.com" wPidA 3 10, Op.importOp "u@example.com" wPidA 1 11,
   Op.withdrawOp "u@example.com" wPidA, Op.withdrawOp "u@example.com" wPidA,
   Op.withdrawOp "u@example.com" wPidA, Op.withdrawOp "u@example.com" wPidA]

/-- C1: for every product P and every sequence of successful Import and
Withdraw calls starting from an initial state where P has no
ImportRecords, the sum of importedQuantity over all ImportRecords
referencing P plus the availableQuantity of P equals the initial stock
of P after each call completes (stated for the final state of an
arbitrary successful sequence, hence for every prefix as well). -/
theorem C1_conservation (ops : List Op) (s0 : CarHubState) (pid : String)
    (p0 : Product) (hWF : WF s0)
    (hp0 : findOneProduct s0.products pid = some p0)
    (hnone : s0.imports.filter (fun r => r.productId == pid) = [])
    (hsucc : opsSucceed s0 ops = true) :
    ∃ p', findOneProduct (runOps s0 ops).products pid = some p' ∧
      importSum (runOps s0 ops).imports pid + p'.availableQuantity =
        p0.availableQuantity := by
  have hsum0 : importSum s0.imports pid = 0 := by
    simp [importSum, hnone]
  suffices h : ∀ ops s p, WF s → findOneProduct s.products pid = some p →
      opsSucceed s ops = true →
      ∃ p', findOneProduct (runOps s ops).products pid = some p' ∧
        importSum (runOps s ops).imports pid + p'.availableQuantity =
          importSum s.imports pid + p.availableQuantity by
    rcases h ops s0 p0 hWF hp0 hsucc with ⟨p', h1, h2⟩
    refine ⟨p', h1, ?_⟩
    rw [h2, hsum0]
    ring
  intro ops
  induction ops with
  | nil =>
    intro s p hWFs hp _
    exact ⟨p, hp, rfl⟩
  | cons op rest ih =>
    intro s p hWFs hp hsc
    rw [opsSucceed, Bool.and_eq_true] at hsc
    rcases conservation_step hWFs hp hsc.1 with ⟨hWF2, p1, hp1, heq1⟩
    rcases ih (applyOp s op).2 p1 hWF2 hp1 hsc.2 with ⟨p', hp', heq2⟩
    refine ⟨p', ?_, ?_⟩
    · rw [runOps]
      exact hp'
    · rw [runOps, heq2, heq1]

/-- Witness for C1 at the concrete scenario of spec section 8. -/
theorem C1_conservation_witness :
    (WF wS0 ∧ findOneProduct wS0.products wPidA = some wProdA ∧
      wS0.imports.filter (fun r => r.productId == wPidA) = [] ∧
      opsSucceed wS0 wOps = true) ∧
    (∃ p', findOneProduct (runOps wS0 wOps).products wPidA = some p' ∧
      importSum (runOps wS0 wOps).imports wPidA + p'.availableQuantity =
        wProdA.availableQuantity) :=
  ⟨⟨⟨by decide, by decide⟩, by decide, by decide, by decide⟩,
   C1_conservation wOps wS0 wPidA wProdA ⟨by decide, by decide⟩
     (by decide) (by decide) (by decide)⟩

/-- C2: when the product exists and the requested quantity strictly
exceeds its availableQuantity, Import responds with the 400
stock-insufficient client error and leaves the state untouched.  The
availableQuantity of a catalog product is never negative and a catalog
id is a valid ObjectId, so those facts are hypotheses. -/
theorem C2_stock_guard (u pid : String) (qty : Int) (now : Nat)
    (s : CarHubState) (p : Product)
    (hvalid : isValidObjectId pid = true)
    (hp : findOneProduct s.products pid = some p)
    (hnn : 0 ≤ p.availableQuantity)
    (hgt : qty > p.availableQuantity) :
    importProduct u pid qty now s = (resStockInsufficient, s) := by
  have h1 : ¬(qty < 1) := by omega
  unfold importProduct
  have hg : (!(isValidObjectId pid) || decide (qty < 1)) = false := by
    simp [hvalid, h1]
  simp only [hg, hp]
  have hq : decide (qty > p.availableQuantity) = true := by
    simpa using hgt
  simp only [hq]

/-- Witness for C2: requesting 10 of a product with 5 in stock. -/
theorem C2_stock_guard_witness :
    (isValidObjectId wPidA = true ∧
      findOneProduct wS0.products wPidA = some wProdA ∧
      0 ≤ wProdA.availableQuantity ∧ (10 : Int) > wProdA.availableQuantity) ∧
    importProduct "u@example.com" wPidA 10 0 wS0 = (resStockInsufficient, wS0) :=
  ⟨⟨by decide, by decide, by decide, by decide⟩,
   C2_stock_guard "u@example.com" wPidA 10 0 wS0 wProdA
     (by decide) (by decide) (by decide) (by decide)⟩

theorem findImportById_incImportedById_self {rs : List ImportRecord} {i : Nat}
    {r : ImportRecord} (d : Int) (h : findImportById rs i = some r) :
    findImportById (incImportedById rs i d) i =
      some { r with importedQuantity := r.importedQuantity + d } := by
  induction rs with
  | nil => simp [findImportById] at h
  | cons r0 rest ih =>
    unfold findImportById at h ih ⊢
    rw [List.find?_cons] at h
    cases hb : (r0._id == i) with
    | true =>
      rw [hb] at h
      cases h
      simp only [incImportedById, hb]
      rw [List.find?_cons]
      simp only [hb]
    | false =>
      rw [hb] at h
      simp only [incImportedById, hb]
      rw [List.find?_cons]
      simp only [hb]
      exact ih h

theorem findImportById_deleteImportById_self {rs : List ImportRecord} {i : Nat}
    (hnd : (rs.map ImportRecord._id).Nodup) :
    findImportById (deleteImportById rs i) i = none := by
  induction rs with
  | nil => rfl
  | cons r0 rest ih =>
    rw [List.map_cons, List.nodup_cons] at hnd
    cases hb : (r0._id == i) with
    | true =>
      simp only [deleteImportById, hb]
      have hi : r0._id = i := by simpa using hb
      unfold findImportById
      rw [List.find?_eq_none]
      intro x hx
      simp only [beq_iff_eq]
      intro hxi
      exact hnd.1 (hi ▸ hxi ▸ List.mem_map_of_mem ImportRecord._id hx)
    | false =>
      simp only [deleteImportById, hb]
      unfold findImportById at ih ⊢
      rw [List.find?_cons, hb]
      exact ih hnd.2

/-- C4: a successful Withdraw on a state holding an import record for
the caller and product deletes the record entirely when the field
importedQuantity equals 1 and otherwise decrements it by exactly 1, and
in both cases increments the availableQuantity of the product by exactly
1, however many units were imported in one call. -/
theorem C4_withdraw_one_unit (s : CarHubState) (u pid : String)
    (r : ImportRecord) (p : Product) (hWF : WF s)
    (hvalid : isValidObjectId pid = true)
    (hf : findOneImport s.imports u pid = some r)
    (hp : findOneProduct s.products pid = some p) :
    (removeImport u pid s).1 = resOk ∧
    findOneProduct (removeImport u pid s).2.products pid =
      some { p with availableQuantity := p.availableQuantity + 1 } ∧
    (r.importedQuantity = 1 →
      findImportById (removeImport u pid s).2.imports r._id = none) ∧
    (r.importedQuantity ≠ 1 →
      findImportById (removeImport u pid s).2.imports r._id =
        some { r with importedQuantity := r.importedQuantity - 1 }) := by
  unfold removeImport
  simp only [hvalid, hf]
  unfold withdrawSuccessState
  cases h1 : (r.importedQuantity == 1) with
  | true =>
    have hq1 : r.importedQuantity = 1 := by simpa using h1
    simp only [h1]
    refine ⟨trivial, findOneProduct_incAvailable_self 1 hp, ?_, ?_⟩
    · intro _
      exact findImportById_deleteImportById_self hWF.1
    · intro hne
      exact absurd hq1 hne
  | false =>
    have hq1 : r.importedQuantity ≠ 1 := by simpa using h1
    simp only [h1]
    refine ⟨trivial, findOneProduct_incAvailable_self 1 hp, ?_, ?_⟩
    · intro heq
      exact absurd heq hq1
    · intro _
      have hById := findImportById_of_mem hWF.1 (findOneImport_spec hf).1
      rw [findImportById_incImportedById_self (-1) hById]
      rw [Int.sub_eq_add_neg]

/-- Fixture state for withdrawals: the user holds a record of 3 units
for the catalog product. -/
def wS3 : CarHubState :=
  { products := [wProdA],
    imports := [{ _id := 0, userEmail := "u@example.com", productId := wPidA,
                  importedQuantity := 3, importedAt := 10, status := "pending" }],
    nextImportId := 1 }

/-- Witness for C4 on a record of 3 units: response success, stock back
to 6, record decremented to 2. -/
theorem C4_withdraw_one_unit_witness :
    (WF wS3 ∧ isValidObjectId wPidA = true ∧
      findOneImport wS3.imports "u@example.com" wPidA =
        some { _id := 0, userEmail := "u@example.com", productId := wPidA,
               importedQuantity := 3, importedAt := 10, status := "pending" } ∧
      findOneProduct wS3.products wPidA = some wProdA) ∧
    ((removeImport "u@example.com" wPidA wS3).1 = resOk ∧
      findOneProduct (removeImport "u@example.com" wPidA wS3).2.products wPidA =
        some { wProdA with availableQuantity := wProdA.availableQuantity + 1 } ∧
      ((3 : Int) = 1 →
        findImportById (removeImport "u@example.com" wPidA wS3).2.imports 0 = none) ∧
      ((3 : Int) ≠ 1 →
        findImportById (removeImport "u@example.com" wPidA wS3).2.imports 0 =
          some { _id := 0, userEmail := "u@example.com", productId := wPidA,
                 importedQuantity := 2, importedAt := 10, status := "pending" })) := by
  refine ⟨⟨⟨by decide, by decide⟩, by decide, by decide, by decide⟩, ?_⟩
  have h := C4_withdraw_one_unit wS3 "u@example.com" wPidA
    { _id := 0, userEmail := "u@example.com", productId := wPidA,
      importedQuantity := 3, importedAt := 10, status := "pending" } wProdA
    ⟨by decide, by decide⟩ (by decide) (by decide) (by decide)
  exact h

/-- C5 counterexample: in src/index.js an Import whose well-formed
productId references no product produces exactly the same 400
stock-insufficient response as an Import that exceeds the stock, not a
distinct not-found error (in particular not a 404). -/
theorem C5_not_found_counterexample :
    importProduct "u@example.com" wPidB 1 0 wS0 = (resStockInsufficient, wS0) ∧
    importProduct "u@example.com" wPidA 10 0 wS0 = (resStockInsufficient, wS0) ∧
    resStockInsufficient.status = 400 ∧ ¬resStockInsufficient.status = 404 := by
  decide

/-- C5 amended: an Import whose well-formed productId references no
product fails with the same 400 stock-insufficient client error the
stock guard uses, and no state mutation occurs. -/
theorem C5_missing_product_same_error (u pid : String) (qty : Int) (now : Nat)
    (s : CarHubState) (hvalid : isValidObjectId pid = true)
    (hq : ¬(qty < 1)) (hnone : findOneProduct s.products pid = none) :
    importProduct u pid qty now s = (resStockInsufficient, s) := by
  unfold importProduct
  have hg : (!(isValidObjectId pid) || decide (qty < 1)) = false := by
    simp [hvalid, hq]
  simp only [hg, hnone]

/-- Witness for the amended C5. -/
theorem C5_missing_product_same_error_witness :
    (isValidObjectId wPidB = true ∧ ¬((1 : Int) < 1) ∧
      findOneProduct wS0.products wPidB = none) ∧
    importProduct "u@example.com" wPidB 1 0 wS0 = (resStockInsufficient, wS0) :=
  ⟨⟨by decide, by decide, by decide⟩,
   C5_missing_product_same_error "u@example.com" wPidB 1 0 wS0
     (by decide) (by decide) (by decide)⟩

/-- C6: the guard of POST /import-product checks qty < 1, which is
false for NaN, so a request whose quantity is not a number greater than
or equal to 1 (Number of the string "abc" gives NaN) is not rejected
before storage access: the handler proceeds to the product findOne. -/
theorem C6_nan_quantity_reaches_storage :
    qtyValidPerSpec JsNum.nan = false ∧
    isValidObjectId wPidA = true ∧
    importGuard wPidA JsNum.nan = ImportPhase.reachedStorage := by
  decide

/-- Older product body inserted first into the C9 fixture catalog. -/
def wBodyOld : ProductBody :=
  { _id := wPidA, productName := "Old Car", productImage := "",
    price := 0, originCountry := "", rating := 0, availableQuantity := 0 }

/-- Newer product body inserted second into the C9 fixture catalog. -/
def wBodyNew : ProductBody :=
  { _id := wPidB, productName := "New Car", productImage := "",
    price := 0, originCountry := "", rating := 0, availableQuantity := 0 }

/-- Catalog with the older product inserted at time 1 and the newer at
time 2; POST /products stamps createdAt only. -/
def wCatalogC9 : List Product :=
  insertProduct wBodyNew "owner@example.com" 2
    (insertProduct wBodyOld "owner@example.com" 1 [])

/-- C9: GET /latest-products sorts by a field named created_at that
POST /products never writes (it stamps createdAt), so the sort compares
only missing values and the route returns the catalog in insertion
order: the older product stays first instead of the newest, refuting
newest-first ordering at this input. -/
theorem C9_latest_products_not_newest_first :
    (latestProducts wCatalogC9).map (fun p => p.createdAt) = [1, 2] ∧
    wCatalogC9.map (fun p => p.createdAt) = [1, 2] := by
  decide

/-- C10: when a Withdraw finds an import record but the product has been
deleted from the catalog, it still reports success and still deletes or
decrements the record, while the stock-restore updateOne matches no
document: the products collection is left exactly unchanged. -/
theorem C10_withdraw_missing_product (s : CarHubState) (u pid : String)
    (r : ImportRecord) (hWF : WF s)
    (hvalid : isValidObjectId pid = true)
    (hf : findOneImport s.imports u pid = some r)
    (hnone : findOneProduct s.products pid = none) :
    (removeImport u pid s).1 = resOk ∧
    (removeImport u pid s).2.products = s.products ∧
    (r.importedQuantity = 1 →
      findImportById (removeImport u pid s).2.imports r._id = none) ∧
    (r.importedQuantity ≠ 1 →
      findImportById (removeImport u pid s).2.imports r._id =
        some { r with importedQuantity := r.importedQuantity - 1 }) := by
  unfold removeImport
  simp only [hvalid, hf]
  unfold withdrawSuccessState
  cases h1 : (r.importedQuantity == 1) with
  | true =>
    have hq1 : r.importedQuantity = 1 := by simpa using h1
    simp only [h1]
    refine ⟨trivial, incAvailable_of_none 1 hnone, ?_, ?_⟩
    · intro _
      exact findImportById_deleteImportById_self hWF.1
    · intro hne
      exact absurd hq1 hne
  | false =>
    have hq1 : r.importedQuantity ≠ 1 := by simpa using h1
    simp only [h1]
    refine ⟨trivial, incAvailable_of_none 1 hnone, ?_, ?_⟩
    · intro heq
      exact absurd heq hq1
    · intro _
      have hById := findImportById_of_mem hWF.1 (findOneImport_spec hf).1
      rw [findImportById_incImportedById_self (-1) hById]
      rw [Int.sub_eq_add_neg]

/-- Fixture state for C10: an import record of 1 unit whose product is
absent from the catalog. -/
def wSOrphan : CarHubState :=
  { products := [],
    imports := [{ _id := 7, userEmail := "u@example.com", productId := wPidA,
                  importedQuantity := 1, importedAt := 10, status := "pending" }],
    nextImportId := 8 }

/-- Witness for C10: the orphaned record is deleted, success is
reported, and the empty products collection is unchanged. -/
theorem C10_withdraw_missing_product_witness :
    (WF wSOrphan ∧ isValidObjectId wPidA = true ∧
      findOneImport wSOrphan.imports "u@example.com" wPidA =
        some { _id := 7, userEmail := "u@example.com", productId := wPidA,
               importedQuantity := 1, importedAt := 10, status := "pending" } ∧
      findOneProduct wSOrphan.products wPidA = none) ∧
    ((removeImport "u@example.com" wPidA wSOrphan).1 = resOk ∧
      (removeImport "u@example.com" wPidA wSOrphan).2.products =
        wSOrphan.products ∧
      ((1 : Int) = 1 →
        findImportById (removeImport "u@example.com" wPidA wSOrphan).2.imports 7 =
          none) ∧
      ((1 : Int) ≠ 1 →
        findImportById (removeImport "u@example.com" wPidA wSOrphan).2.imports 7 =
          some { _id := 7, userEmail := "u@example.com", productId := wPidA,
                 importedQuantity := 0, importedAt := 10, status := "pending" })) := by
  refine ⟨⟨⟨by decide, by decide⟩, by decide, by decide, by decide⟩, ?_⟩
  have h := C10_withdraw_missing_product wSOrphan "u@example.com" wPidA
    { _id := 7, userEmail := "u@example.com", productId := wPidA,
      importedQuantity := 1, importedAt := 10, status := "pending" }
    ⟨by decide, by decide⟩ (by decide) (by decide) (by decide)
  exact h

theorem incImportedById_append_last (base : List ImportRecord)
    (rec : ImportRecord) (d : Int)
    (hIds : ∀ x ∈ base, x._id ≠ rec._id) :
    incImportedById (base ++ [rec]) rec._id d =
      base ++ [{ rec with importedQuantity := rec.importedQuantity + d }] := by
  induction base with
  | nil =>
    simp only [List.nil_append, incImportedById, beq_self_eq_true]
  | cons b bs ih =>
    have hb : (b._id == rec._id) = false := by
      simp only [beq_eq_false_iff_ne, ne_eq]
      exact hIds b (List.mem_cons_self b bs)
    simp only [List.cons_append, incImportedById, hb, List.append_eq]
    rw [ih (fun x hx => hIds x (List.mem_cons_of_mem b hx))]

theorem findOneImport_append_last (base : List ImportRecord)
    (u pid : String) (i0 : Nat) (x : Int) (t0 : Nat)
    (hB : base.filter (fun r => r.userEmail == u && r.productId == pid) = []) :
    findOneImport (base ++
        [({ _id := i0, userEmail := u, productId := pid,
            importedQuantity := x, importedAt := t0,
            status := "pending" } : ImportRecord)]) u pid =
      some ({ _id := i0, userEmail := u, productId := pid,
              importedQuantity := x, importedAt := t0,
              status := "pending" } : ImportRecord) := by
  unfold findOneImport
  rw [List.find?_append]
  have h1 : base.find? (fun r => r.userEmail == u && r.productId == pid) = none := by
    rw [List.find?_eq_none]
    intro r hr
    have := List.filter_eq_nil_iff.mp hB r hr
    simpa using this
  rw [h1]
  simp

/-- Successive imports by the same user for the same product keep
exactly one appended record, accumulating the quantities. -/
theorem import_only_merges (base : List ImportRecord) (u pid : String)
    (i0 : Nat)
    (hB : base.filter (fun r => r.userEmail == u && r.productId == pid) = [])
    (hIds : ∀ x ∈ base, x._id ≠ i0) :
    ∀ (qts : List (Int × Nat)) (s : CarHubState) (x : Int) (t0 : Nat),
      s.imports = base ++
        [({ _id := i0, userEmail := u, productId := pid,
            importedQuantity := x, importedAt := t0,
            status := "pending" } : ImportRecord)] →
      opsSucceed s (qts.map (fun y => Op.importOp u pid y.1 y.2)) = true →
      (runOps s (qts.map (fun y => Op.importOp u pid y.1 y.2))).imports =
        base ++
          [({ _id := i0, userEmail := u, productId := pid,
              importedQuantity := x + (qts.map (fun y => y.1)).sum,
              importedAt := t0, status := "pending" } : ImportRecord)] := by
  intro qts
  induction qts with
  | nil =>
    intro s x t0 hs _
    simp only [List.map_nil, runOps, List.sum_nil, add_zero]
    exact hs
  | cons qt rest ih =>
    intro s x t0 hs hsucc
    simp only [List.map_cons, opsSucceed, Bool.and_eq_true, applyOp] at hsucc
    have heq := importProduct_success_eq hsucc.1
    have hfind := findOneImport_append_last base u pid i0 x t0 hB
    have hstate :
        (importSuccessState u pid qt.1 qt.2 s).imports =
          base ++
            [({ _id := i0, userEmail := u, productId := pid,
                importedQuantity := x + qt.1, importedAt := t0,
                status := "pending" } : ImportRecord)] := by
      unfold importSuccessState
      rw [hs]
      simp only [hfind]
      exact incImportedById_append_last base _ qt.1 hIds
    simp only [List.map_cons, runOps, applyOp, heq]
    have hsum : x + (qt.1 + ((rest.map (fun y => y.1)).sum)) =
        (x + qt.1) + (rest.map (fun y => y.1)).sum := by ring
    simp only [List.map_cons, List.sum_cons, hsum]
    apply ih (importSuccessState u pid qt.1 qt.2 s) (x + qt.1) t0 hstate
    have h2 := hsucc.2
    rw [heq] at h2
    exact h2

/-- C3: starting with no import record for the pair of user and
product, any nonempty sequence of successful Imports by that user for
that product leaves exactly one ImportRecord for the pair, holding the
sum of the imported quantities; repeated imports merge instead of
creating parallel records. -/
theorem C3_merge_idempotence (qts : List (Int × Nat)) (s0 : CarHubState)
    (u pid : String) (hWF : WF s0)
    (hnone : s0.imports.filter
      (fun r => r.userEmail == u && r.productId == pid) = [])
    (hne : qts ≠ [])
    (hsucc : opsSucceed s0 (qts.map (fun y => Op.importOp u pid y.1 y.2)) = true) :
    ∃ r, (runOps s0 (qts.map (fun y => Op.importOp u pid y.1 y.2))).imports.filter
        (fun r => r.userEmail == u && r.productId == pid) = [r] ∧
      r.importedQuantity = (qts.map (fun y => y.1)).sum := by
  cases qts with
  | nil => exact absurd rfl hne
  | cons qt rest =>
    simp only [List.map_cons, opsSucceed, Bool.and_eq_true, applyOp] at hsucc
    have heq := importProduct_success_eq hsucc.1
    have hfind0 : findOneImport s0.imports u pid = none := by
      unfold findOneImport
      rw [List.find?_eq_none]
      intro r hr
      have := List.filter_eq_nil_iff.mp hnone r hr
      simpa using this
    have hstate1 :
        (importSuccessState u pid qt.1 qt.2 s0).imports =
          s0.imports ++
            [({ _id := s0.nextImportId, userEmail := u, productId := pid,
                importedQuantity := qt.1, importedAt := qt.2,
                status := "pending" } : ImportRecord)] := by
      unfold importSuccessState
      simp only [hfind0]
    have hIds : ∀ x ∈ s0.imports, x._id ≠ s0.nextImportId := by
      intro x hx
      exact Nat.ne_of_lt (hWF.2 x hx)
    have haux := import_only_merges s0.imports u pid s0.nextImportId hnone hIds
      rest (importSuccessState u pid qt.1 qt.2 s0) qt.1 qt.2 hstate1 ?hrest
    case hrest =>
      have h2 := hsucc.2
      rw [heq] at h2
      exact h2
    refine ⟨({ _id := s0.nextImportId, userEmail := u, productId := pid,
               importedQuantity := qt.1 + (rest.map (fun y => y.1)).sum,
               importedAt := qt.2, status := "pending" } : ImportRecord), ?_, ?_⟩
    · simp only [List.map_cons, runOps, applyOp, heq]
      rw [haux, List.filter_append, hnone]
      simp
    · simp

/-- Witness for C3: two imports of 3 and 1 yield one record with 4. -/
theorem C3_merge_idempotence_witness :
    (WF wS0 ∧
      wS0.imports.filter
        (fun r => r.userEmail == "u@example.com" && r.productId == wPidA) = [] ∧
      [((3 : Int), (10 : Nat)), (1, 11)] ≠ [] ∧
      opsSucceed wS0 ([((3 : Int), (10 : Nat)), (1, 11)].map
        (fun y => Op.importOp "u@example.com" wPidA y.1 y.2)) = true) ∧
    (∃ r, (runOps wS0 ([((3 : Int), (10 : Nat)), (1, 11)].map
        (fun y => Op.importOp "u@example.com" wPidA y.1 y.2))).imports.filter
        (fun r => r.userEmail == "u@example.com" && r.productId == wPidA) = [r] ∧
      r.importedQuantity =
        (([((3 : Int), (10 : Nat)), (1, 11)]).map (fun y => y.1)).sum) :=
  ⟨⟨⟨by decide, by decide⟩, by decide, by decide, by decide⟩,
   C3_merge_idempotence [((3 : Int), (10 : Nat)), (1, 11)] wS0
     "u@example.com" wPidA ⟨by decide, by decide⟩ (by decide) (by decide)
     (by decide)⟩

theorem matchesAt_eq_prefixAtCI {pat : List Char}
    (hdot : ('.' : Char) ∉ pat) :
    ∀ txt : List Char, matchesAt pat txt = prefixAtCI pat txt := by
  induction pat with
  | nil => intro txt; rfl
  | cons p ps ih =>
    intro txt
    cases txt with
    | nil => rfl
    | cons c cs =>
      have hp : p ≠ ('.' : Char) := fun hc => hdot (hc ▸ List.mem_cons_self p ps)
      have hdot2 : ('.' : Char) ∉ ps := fun hc => hdot (List.mem_cons_of_mem p hc)
      have hb : (p == ('.' : Char)) = false := by
        simp only [beq_eq_false_iff_ne, ne_eq]
        exact hp
      simp only [matchesAt, prefixAtCI, charMatchesCI, charEqCI]
      rw [hb, ih hdot2 cs]
      simp

theorem regexSearchCI_eq_isSubstringCI {pat : List Char}
    (hdot : ('.' : Char) ∉ pat) :
    ∀ txt : List Char, regexSearchCI pat txt = isSubstringCI pat txt := by
  intro txt
  induction txt with
  | nil =>
    simp only [regexSearchCI, isSubstringCI]
    exact matchesAt_eq_prefixAtCI hdot []
  | cons c cs ih =>
    simp only [regexSearchCI, isSubstringCI]
    rw [matchesAt_eq_prefixAtCI hdot (c :: cs), ih]

/-- C8 counterexample: the search text is handed to the regex engine as
a pattern, not as a literal: the text with a dot matches the product
named abc although it is not a substring of that name. -/
def wProdAbc : Product := { wProdA with productName := "abc" }

/-- C8 counterexample theorem: searching the pattern with a dot returns
the product although the claim-side case-insensitive substring test
rejects it. -/
theorem C8_search_counterexample :
    searchProducts "a.c" [wProdAbc] = [wProdAbc] ∧
    isSubstringCI "a.c".toList "abc".toList = false := by
  decide

/-- C8 amended: for a nonempty search text with no surrounding
whitespace and no regex metacharacter whose match set is within the cap
of 20, search returns exactly the products whose name contains the text
case-insensitively as an unanchored substring; texts with
metacharacters are instead interpreted as regular expressions. -/
theorem C8_search_substring (t : String) (ps : List Product) (P : Product)
    (htrim : strTrim t = t) (hne : t ≠ "")
    (hmeta : ∀ c ∈ t.toList, isRegexMeta c = false)
    (hcount : (ps.filter
      (fun p => regexSearchCI t.toList p.productName.toList)).length ≤ 20) :
    P ∈ searchProducts t ps ↔
      P ∈ ps ∧ isSubstringCI t.toList P.productName.toList = true := by
  have hdot : ('.' : Char) ∉ t.toList := by
    intro hc
    have := hmeta ('.' : Char) hc
    simp [isRegexMeta] at this
  have hne2 : (t == "") = false := by
    simp only [beq_eq_false_iff_ne, ne_eq]
    exact hne
  unfold searchProducts
  simp only [htrim, hne2, Bool.false_eq_true, if_false]
  rw [List.take_of_length_le hcount, List.mem_filter]
  rw [regexSearchCI_eq_isSubstringCI hdot]

/-- Witness for the amended C8 at the spec example: searching civic
finds the product named Honda Civic. -/
theorem C8_search_substring_witness :
    wProdA ∈ searchProducts "civic" [wProdA] := by
  have h := C8_search_substring "civic" [wProdA] wProdA
    (by decide) (by decide) (by decide) (by decide)
  exact h.mpr ⟨by decide, by decide⟩

/-! Lemmas about the group stage of GET /my-imports. -/

/-- First group of a given productId, carrying its accumulated sum. -/
def lookupG (gs : List (String × Int)) (pid : String) : Option Int :=
  (gs.find? (fun g => g.1 == pid)).map (fun g => g.2)

/-- Keys of the groups in order. -/
def keysG (gs : List (String × Int)) : List String := gs.map (fun g => g.1)

theorem lookupG_addToGroups_self (gs : List (String × Int)) (pid : String)
    (q : Int) :
    lookupG (addToGroups gs pid q) pid = some ((lookupG gs pid).getD 0 + q) := by
  induction gs with
  | nil => simp [addToGroups, lookupG]
  | cons g rest ih =>
    rcases g with ⟨p, acc⟩
    cases hb : (p == pid) with
    | true =>
      have hp : p = pid := by simpa using hb
      subst hp
      simp [addToGroups, lookupG, List.find?_cons]
    | false =>
      simp only [addToGroups, hb]
      unfold lookupG at ih ⊢
      rw [List.find?_cons, List.find?_cons]
      simp only [hb]
      exact ih

theorem lookupG_addToGroups_ne (gs : List (String × Int)) {pid pid' : String}
    (q : Int) (h : pid' ≠ pid) :
    lookupG (addToGroups gs pid q) pid' = lookupG gs pid' := by
  have hb0 : (pid == pid') = false := by
    simp only [beq_eq_false_iff_ne, ne_eq]
    exact fun hc => h hc.symm
  induction gs with
  | nil => simp [addToGroups, lookupG, List.find?_cons, hb0]
  | cons g rest ih =>
    rcases g with ⟨p, acc⟩
    cases hb : (p == pid) with
    | true =>
      have hp : p = pid := by simpa using hb
      subst hp
      simp only [addToGroups, beq_self_eq_true]
      unfold lookupG
      rw [List.find?_cons, List.find?_cons]
      simp only [hb0]
    | false =>
      simp only [addToGroups, hb]
      unfold lookupG at ih ⊢
      rw [List.find?_cons, List.find?_cons]
      cases hc : (p == pid') with
      | true => rfl
      | false => exact ih

theorem lookupG_eq_none_iff (gs : List (String × Int)) (pid : String) :
    lookupG gs pid = none ↔ pid ∉ keysG gs := by
  induction gs with
  | nil => simp [lookupG, keysG]
  | cons g rest ih =>
    rcases g with ⟨p, acc⟩
    unfold lookupG keysG at ih ⊢
    rw [List.find?_cons]
    cases hb : (p == pid) with
    | true =>
      have hp : p = pid := by simpa using hb
      subst hp
      simp
    | false =>
      have hp : ¬(p = pid) := by simpa using hb
      simp only [List.map_cons, List.mem_cons]
      constructor
      · intro h1 h2
        rcases h2 with h2 | h2
        · exact hp h2.symm
        · exact (ih.mp h1) h2
      · intro h1
        exact ih.mpr (fun hc => h1 (Or.inr hc))

theorem keysG_addToGroups_mem (gs : List (String × Int)) {pid : String}
    (q : Int) (h : pid ∈ keysG gs) :
    keysG (addToGroups gs pid q) = keysG gs := by
  induction gs with
  | nil => simp [keysG] at h
  | cons g rest ih =>
    rcases g with ⟨p, acc⟩
    cases hb : (p == pid) with
    | true => simp [addToGroups, hb, keysG]
    | false =>
      have hp : ¬(p = pid) := by simpa using hb
      have h2 : pid ∈ keysG rest := by
        unfold keysG at h
        rcases List.mem_cons.mp h with hc | hc
        · exact absurd hc.symm hp
        · exact hc
      simp only [addToGroups, hb]
      unfold keysG at ih ⊢
      simp only [List.map_cons, ih h2]

theorem keysG_addToGroups_not_mem (gs : List (String × Int)) {pid : String}
    (q : Int) (h : pid ∉ keysG gs) :
    keysG (addToGroups gs pid q) = keysG gs ++ [pid] := by
  induction gs with
  | nil => simp [addToGroups, keysG]
  | cons g rest ih =>
    rcases g with ⟨p, acc⟩
    cases hb : (p == pid) with
    | true =>
      have hp : p = pid := by simpa using hb
      subst hp
      exfalso
      apply h
      unfold keysG
      simp
    | false =>
      have h2 : pid ∉ keysG rest := fun hc => h (List.mem_cons_of_mem _ hc)
      simp only [addToGroups, hb]
      unfold keysG at ih ⊢
      simp only [List.map_cons, ih h2, List.cons_append]

/-- One step of the group fold, as used by groupByProduct. -/
def groupStep (gs : List (String × Int)) (r : ImportRecord) :
    List (String × Int) :=
  addToGroups gs r.productId r.importedQuantity

theorem groupByProduct_eq_foldl (rs : List ImportRecord) :
    groupByProduct rs = rs.foldl groupStep [] := rfl

theorem lookupG_groupFold_some {rs : List ImportRecord} :
    ∀ {gs : List (String × Int)} {pid : String} {a : Int},
      lookupG gs pid = some a →
      lookupG (rs.foldl groupStep gs) pid = some (a + importSum rs pid) := by
  induction rs with
  | nil =>
    intro gs pid a h
    simpa [importSum] using h
  | cons r rest ih =>
    intro gs pid a h
    simp only [List.foldl_cons]
    cases hb : (r.productId == pid) with
    | true =>
      have hpid : r.productId = pid := by simpa using hb
      have h1 : lookupG (groupStep gs r) pid = some (a + r.importedQuantity) := by
        unfold groupStep
        rw [hpid, lookupG_addToGroups_self, h]
        simp
      rw [ih h1, importSum_cons, hb]
      simp only [if_true]
      congr 1
      ring
    | false =>
      have hne : pid ≠ r.productId := by
        have : ¬(r.productId = pid) := by simpa using hb
        exact fun hc => this hc.symm
      have h1 : lookupG (groupStep gs r) pid = some a := by
        unfold groupStep
        rw [lookupG_addToGroups_ne gs r.importedQuantity hne, h]
      rw [ih h1, importSum_cons, hb]
      simp

theorem lookupG_groupFold_not_mem {rs : List ImportRecord} :
    ∀ {gs : List (String × Int)} {pid : String},
      lookupG gs pid = none →
      pid ∉ rs.map (fun r => r.productId) →
      lookupG (rs.foldl groupStep gs) pid = none := by
  induction rs with
  | nil =>
    intro gs pid h _
    simpa using h
  | cons r rest ih =>
    intro gs pid h hmem
    simp only [List.map_cons, List.mem_cons] at hmem
    push_neg at hmem
    have hne : pid ≠ r.productId := hmem.1
    simp only [List.foldl_cons]
    apply ih ?_ hmem.2
    unfold groupStep
    rw [lookupG_addToGroups_ne gs r.importedQuantity hne, h]

theorem lookupG_groupFold_mem {rs : List ImportRecord} :
    ∀ {gs : List (String × Int)} {pid : String},
      lookupG gs pid = none →
      pid ∈ rs.map (fun r => r.productId) →
      lookupG (rs.foldl groupStep gs) pid = some (importSum rs pid) := by
  induction rs with
  | nil =>
    intro gs pid _ hmem
    simp at hmem
  | cons r rest ih =>
    intro gs pid h hmem
    simp only [List.foldl_cons]
    cases hb : (r.productId == pid) with
    | true =>
      have hpid : r.productId = pid := by simpa using hb
      have h1 : lookupG (groupStep gs r) pid = some (0 + r.importedQuantity) := by
        unfold groupStep
        rw [hpid, lookupG_addToGroups_self, h]
        simp
      rw [lookupG_groupFold_some h1, importSum_cons, hb]
      simp only [if_true]
      congr 1
      ring
    | false =>
      have hne : pid ≠ r.productId := by
        have : ¬(r.productId = pid) := by simpa using hb
        exact fun hc => this hc.symm
      have hmem2 : pid ∈ rest.map (fun r => r.productId) := by
        simp only [List.map_cons, List.mem_cons] at hmem
        rcases hmem with hc | hc
        · exact absurd hc.symm (by simpa using hb)
        · exact hc
      have h1 : lookupG (groupStep gs r) pid = none := by
        unfold groupStep
        rw [lookupG_addToGroups_ne gs r.importedQuantity hne, h]
      rw [ih h1 hmem2, importSum_cons, hb]
      simp

theorem keysG_groupFold_nodup {rs : List ImportRecord} :
    ∀ {gs : List (String × Int)}, (keysG gs).Nodup →
      (keysG (rs.foldl groupStep gs)).Nodup := by
  induction rs with
  | nil => intro gs h; simpa using h
  | cons r rest ih =>
    intro gs h
    simp only [List.foldl_cons]
    apply ih
    by_cases hm : r.productId ∈ keysG gs
    · rw [show groupStep gs r = addToGroups gs r.productId r.importedQuantity from rfl]
      rw [keysG_addToGroups_mem gs r.importedQuantity hm]
      exact h
    · rw [show groupStep gs r = addToGroups gs r.productId r.importedQuantity from rfl]
      rw [keysG_addToGroups_not_mem gs r.importedQuantity hm]
      rw [List.nodup_append]
      exact ⟨h, List.nodup_singleton _, by
        intro x hx hx1
        simp only [List.mem_singleton] at hx1
        exact hm (hx1 ▸ hx)⟩

theorem keysG_groupFold_mem_iff {rs : List ImportRecord} :
    ∀ {gs : List (String × Int)} {pid : String},
      pid ∈ keysG (rs.foldl groupStep gs) ↔
        pid ∈ keysG gs ∨ pid ∈ rs.map (fun r => r.productId) := by
  intro gs pid
  by_cases h1 : pid ∈ keysG gs
  · constructor
    · intro _; exact Or.inl h1
    · intro _
      have hsome : lookupG gs pid ≠ none := fun hc =>
        (lookupG_eq_none_iff gs pid).mp hc h1
      rcases Option.ne_none_iff_exists.mp hsome with ⟨a, ha⟩
      have := @lookupG_groupFold_some rs gs pid a ha.symm
      by_contra hc
      rw [(lookupG_eq_none_iff _ pid).mpr hc] at this
      cases this
  · have hnone : lookupG gs pid = none := (lookupG_eq_none_iff gs pid).mpr h1
    by_cases h2 : pid ∈ rs.map (fun r => r.productId)
    · constructor
      · intro _; exact Or.inr h2
      · intro _
        have := lookupG_groupFold_mem hnone h2
        by_contra hc
        rw [(lookupG_eq_none_iff _ pid).mpr hc] at this
        cases this
    · constructor
      · intro hc
        exfalso
        have := lookupG_groupFold_not_mem hnone h2
        exact ((lookupG_eq_none_iff _ pid).mp this) hc
      · intro hc
        rcases hc with hc | hc
        · exact absurd hc h1
        · exact absurd hc h2

theorem lookupG_of_mem_nodup {gs : List (String × Int)}
    (hnd : (keysG gs).Nodup) {g : String × Int} (hg : g ∈ gs) :
    lookupG gs g.1 = some g.2 := by
  induction gs with
  | nil => cases hg
  | cons g0 rest ih =>
    unfold keysG at hnd
    rw [List.map_cons, List.nodup_cons] at hnd
    rcases List.mem_cons.mp hg with h0 | hrest
    · subst h0
      unfold lookupG
      rw [List.find?_cons]
      simp
    · have hne : (g0.1 == g.1) = false := by
        simp only [beq_eq_false_iff_ne, ne_eq]
        intro hc
        apply hnd.1
        rw [hc]
        exact List.mem_map_of_mem (fun g => g.1) hrest
      unfold lookupG at ih ⊢
      rw [List.find?_cons, hne]
      exact ih hnd.2 hrest

theorem filter_id_of_some {ps : List Product} {pid : String} {p : Product}
    (hnd : (ps.map Product._id).Nodup) (h : findOneProduct ps pid = some p) :
    ps.filter (fun x => x._id == pid) = [p] := by
  induction ps with
  | nil => simp [findOneProduct] at h
  | cons p0 rest ih =>
    rw [List.map_cons, List.nodup_cons] at hnd
    unfold findOneProduct at h ih
    rw [List.find?_cons] at h
    cases hb : (p0._id == pid) with
    | true =>
      rw [hb] at h
      cases h
      have hrest : rest.filter (fun x => x._id == pid) = [] := by
        rw [List.filter_eq_nil_iff]
        intro x hx
        simp only [beq_iff_eq]
        intro hc
        apply hnd.1
        have hpp : p._id = pid := by simpa using hb
        rw [hpp, ← hc]
        exact List.mem_map_of_mem Product._id hx
      rw [List.filter_cons, hb]
      simp only [if_true, hrest]
    | false =>
      rw [hb] at h
      rw [List.filter_cons, hb]
      simp only [Bool.false_eq_true, if_false]
      exact ih hnd.2 h

theorem filter_id_of_none {ps : List Product} {pid : String}
    (h : findOneProduct ps pid = none) :
    ps.filter (fun x => x._id == pid) = [] := by
  rw [List.filter_eq_nil_iff]
  intro x hx
  unfold findOneProduct at h
  have := List.find?_eq_none.mp h x hx
  simpa using this

theorem findOneProduct_isSome_iff (ps : List Product) (pid : String) :
    (findOneProduct ps pid).isSome = true ↔ pid ∈ ps.map Product._id := by
  unfold findOneProduct
  rw [List.find?_isSome]
  constructor
  · rintro ⟨x, hx, hpx⟩
    have : x._id = pid := by simpa using hpx
    rw [← this]
    exact List.mem_map_of_mem Product._id hx
  · intro h
    rcases List.mem_map.mp h with ⟨x, hx, hid⟩
    exact ⟨x, hx, by simp [hid]⟩

theorem lookupRows_some {s : CarHubState} {g : String × Int} {p : Product}
    (hnd : (s.products.map Product._id).Nodup)
    (hf : findOneProduct s.products g.1 = some p) :
    lookupRows s g =
      [⟨g.1, p.productImage, p.productName, p.price,
        p.originCountry, p.rating, g.2⟩] := by
  unfold lookupRows
  rw [filter_id_of_some hnd hf]
  rfl

theorem lookupRows_none {s : CarHubState} {g : String × Int}
    (hf : findOneProduct s.products g.1 = none) :
    lookupRows s g = [] := by
  unfold lookupRows
  rw [filter_id_of_none hf]
  rfl

theorem rows_map_pid_aux (s : CarHubState)
    (hnd : (s.products.map Product._id).Nodup) :
    ∀ gs : List (String × Int),
      (gs.flatMap (lookupRows s)).map (fun row => row.productId) =
        (gs.filter (fun g => (findOneProduct s.products g.1).isSome)).map
          (fun g => g.1) := by
  intro gs
  induction gs with
  | nil => rfl
  | cons g rest ih =>
    simp only [List.flatMap_cons, List.map_append, List.filter_cons]
    cases hf : findOneProduct s.products g.1 with
    | some p =>
      rw [lookupRows_some hnd hf, ih]
      simp
    | none =>
      rw [lookupRows_none hf, ih]
      simp

/-- C7 counterexample: a user holding one import record whose product
has been deleted from the catalog gets zero rows from ListMine, not one
row for that distinct productId: the unwind stage drops groups whose
lookup finds no product. -/
theorem C7_one_row_counterexample :
    myImports "u@example.com" wSOrphan = [] ∧
    (wSOrphan.imports.filter
      (fun r => r.userEmail == "u@example.com")).map
      (fun r => r.productId) = [wPidA] := by
  decide

/-- C7 amended: with distinct catalog ids, ListMine returns exactly one
row per distinct productId among the import records of the caller that
still exists in the catalog (records of deleted products yield no row),
never one row per record, each row carrying the sum of importedQuantity
over the records of the caller for that product and the display fields
of the product. -/
theorem C7_my_imports_rows (u : String) (s : CarHubState)
    (hnd : (s.products.map Product._id).Nodup) :
    ((myImports u s).map (fun row => row.productId)).Nodup ∧
    (∀ pid, pid ∈ (myImports u s).map (fun row => row.productId) ↔
      (pid ∈ (s.imports.filter (fun r => r.userEmail == u)).map
          (fun r => r.productId) ∧
        pid ∈ s.products.map Product._id)) ∧
    (∀ row ∈ myImports u s,
      row.importedQuantity =
        importSum (s.imports.filter (fun r => r.userEmail == u))
          row.productId ∧
      ∃ p, p ∈ s.products ∧ p._id = row.productId ∧
        row.productName = p.productName ∧ row.productImage = p.productImage ∧
        row.price = p.price ∧ row.originCountry = p.originCountry ∧
        row.rating = p.rating) := by
  have hkeysnd : (keysG (groupByProduct (s.imports.filter
      (fun r => r.userEmail == u)))).Nodup := by
    rw [groupByProduct_eq_foldl]
    exact keysG_groupFold_nodup (by simp [keysG])
  have hrows := rows_map_pid_aux s hnd
    (groupByProduct (s.imports.filter (fun r => r.userEmail == u)))
  have hkeysmem : ∀ pid,
      pid ∈ keysG (groupByProduct (s.imports.filter
        (fun r => r.userEmail == u))) ↔
      pid ∈ (s.imports.filter (fun r => r.userEmail == u)).map
        (fun r => r.productId) := by
    intro pid
    rw [groupByProduct_eq_foldl]
    rw [keysG_groupFold_mem_iff]
    simp [keysG]
  refine ⟨?_, ?_, ?_⟩
  · unfold myImports
    rw [hrows]
    apply hkeysnd.sublist
    unfold keysG
    exact List.Sublist.map _ (List.filter_sublist _)
  · intro pid
    unfold myImports
    rw [hrows]
    constructor
    · intro hm
      rcases List.mem_map.mp hm with ⟨g, hgf, hgp⟩
      rcases List.mem_filter.mp hgf with ⟨hgs, hcond⟩
      subst hgp
      refine ⟨(hkeysmem g.1).mp (List.mem_map_of_mem (fun g => g.1) hgs), ?_⟩
      rw [← findOneProduct_isSome_iff]
      exact hcond
    · rintro ⟨hk, hprod⟩
      rcases List.mem_map.mp ((hkeysmem pid).mpr hk) with ⟨g, hgs, hgp⟩
      subst hgp
      apply List.mem_map_of_mem (fun g : String × Int => g.1)
      apply List.mem_filter.mpr
      refine ⟨hgs, ?_⟩
      rw [findOneProduct_isSome_iff]
      exact hprod
  · intro row hrow
    unfold myImports at hrow
    rcases List.mem_flatMap.mp hrow with ⟨g, hgs, hrowg⟩
    unfold lookupRows at hrowg
    rcases List.mem_map.mp hrowg with ⟨p, hpf, hrowp⟩
    rcases List.mem_filter.mp hpf with ⟨hps, hpid⟩
    have hpid2 : p._id = g.1 := by simpa using hpid
    have hsum : g.2 = importSum (s.imports.filter
        (fun r => r.userEmail == u)) g.1 := by
      have h1 : lookupG (groupByProduct (s.imports.filter
          (fun r => r.userEmail == u))) g.1 = some g.2 :=
        lookupG_of_mem_nodup hkeysnd hgs
      have hkmem : g.1 ∈ (s.imports.filter
          (fun r => r.userEmail == u)).map (fun r => r.productId) :=
        (hkeysmem g.1).mp (List.mem_map_of_mem (fun g => g.1) hgs)
      have h2 : lookupG (groupByProduct (s.imports.filter
          (fun r => r.userEmail == u))) g.1 =
          some (importSum (s.imports.filter
            (fun r => r.userEmail == u)) g.1) := by
        rw [groupByProduct_eq_foldl]
        exact lookupG_groupFold_mem rfl hkmem
      rw [h1] at h2
      exact Option.some.inj h2
    subst hrowp
    refine ⟨hsum, p, hps, hpid2, rfl, rfl, rfl, rfl, rfl⟩

/-- Witness for the amended C7 at a concrete state with one record of 3
units for the catalog product. -/
theorem C7_my_imports_rows_witness :
    (wS3.products.map Product._id).Nodup ∧
    (((myImports "u@example.com" wS3).map (fun row => row.productId)).Nodup ∧
    (∀ pid, pid ∈ (myImports "u@example.com" wS3).map
        (fun row => row.productId) ↔
      (pid ∈ (wS3.imports.filter
          (fun r => r.userEmail == "u@example.com")).map
          (fun r => r.productId) ∧
        pid ∈ wS3.products.map Product._id)) ∧
    (∀ row ∈ myImports "u@example.com" wS3,
      row.importedQuantity =
        importSum (wS3.imports.filter
          (fun r => r.userEmail == "u@example.com")) row.productId ∧
      ∃ p, p ∈ wS3.products ∧ p._id = row.productId ∧
        row.productName = p.productName ∧ row.productImage = p.productImage ∧
        row.price = p.price ∧ row.originCountry = p.originCountry ∧
        row.rating = p.rating)) :=
  ⟨by decide, C7_my_imports_rows "u@example.com" wS3 (by decide)⟩

end CarHub
